import Mathlib

/-!
Verification of the feed-them document store (src/feedem/db.py) and its
unit-conversion engine (src/feedem/__init__.py).

The store keeps one YAML file per document inside a git working directory.
We embed the relevant state shallowly:

* a `GitRepo` models the git repository feed-them shells out to: a working
  tree, a staging area (index), the HEAD snapshot, and the list of commit
  messages (newest first).  `git status --porcelain`, `git add` and
  `git commit -a -m` are modelled by `statusClean`, `gitAdd` and
  `gitCommitA` with their standard semantics: `status` reports any
  difference between working tree / index and HEAD (untracked files
  included), `commit -a` additionally stages modified tracked files and
  exits non-zero when the resulting snapshot equals HEAD ("nothing to
  commit").
* a `Document` models `feedem.db.Document`: a document id, the lazily
  cached parsed data (`self._data`) and the `dirty` flag.  The backing file
  lives in the repo working tree at `"<id>.yml"`.
* the external YAML codec (ruamel) is kept abstract: operations that
  serialize or parse take `dump : Yaml → String` / `load : String → Yaml`
  parameters.
-/

/-- An association list from file path to file content; models the set of
files of a directory (ordered, first binding wins). -/
abbrev FileMap := List (String × String)

def fmLookup : FileMap → String → Option String
  | [], _ => none
  | (k, v) :: rest, key => if k == key then some v else fmLookup rest key

def fmInsert : FileMap → String → String → FileMap
  | [], k, v => [(k, v)]
  | (k', v') :: rest, k, v =>
      if k' == k then (k, v) :: rest else (k', v') :: fmInsert rest k v

def fmKeys (m : FileMap) : List String := m.map Prod.fst

/-- Two file maps hold the same content: every path bound in either map has
the same (optional) content in both. -/
def fmAgree (a b : FileMap) : Bool :=
  (fmKeys a ++ fmKeys b).all fun k => fmLookup a k == fmLookup b k

/-- The state of the git repository wrapped by the store: working tree,
staging area, HEAD snapshot and commit messages (newest first). -/
structure GitRepo where
  work : FileMap
  staged : FileMap
  head : FileMap
  history : List String
deriving DecidableEq, Repr

/-- `git init` in a fresh directory. -/
def gitInit : GitRepo := ⟨[], [], [], []⟩

/-- `git status --porcelain` produced no output: working tree and index both
agree with HEAD (an untracked file in the working tree makes it dirty). -/
def statusClean (r : GitRepo) : Bool :=
  fmAgree r.work r.head && fmAgree r.staged r.head

/-- `git add <p>`: stage the working-tree content of `p`; fails when no such
path exists in the working tree (pathspec error, non-zero exit). -/
def gitAdd (p : String) (r : GitRepo) : Except String GitRepo :=
  match fmLookup r.work p with
  | some v => .ok { r with staged := fmInsert r.staged p v }
  | none => .error "pathspec did not match any files"

/-- `git commit -a -m <msg>`: additionally stage the working-tree content of
every tracked (HEAD) file, then commit.  When the resulting snapshot agrees
with HEAD the command exits non-zero ("nothing to commit") and
`subprocess.check_call` raises. -/
def gitCommitA (msg : String) (r : GitRepo) : Except String GitRepo :=
  let snap := (fmKeys r.head).foldl
    (fun s k => match fmLookup r.work k with
      | some v => fmInsert s k v
      | none => s) r.staged
  if fmAgree snap r.head then .error "nothing to commit"
  else .ok { work := r.work, staged := snap, head := snap, history := msg :: r.history }

/-- `Document._commit` generalised over path and message, the
`commit(paths, message)` operation of the spec: run `git status
--porcelain`; if the output is empty return without doing anything; else
`git add <p>` and `git commit -a -m <msg>`. -/
def commitOp (p msg : String) (r : GitRepo) : Except String GitRepo :=
  if statusClean r then .ok r
  else
    match gitAdd p r with
    | .error e => .error e
    | .ok r1 => gitCommitA msg r1

/-- Parsed YAML data as manipulated by the store (`Document.data`). -/
inductive Yaml : Type where
  | str (s : String) : Yaml
  | int (n : Int) : Yaml
  | list (xs : List Yaml) : Yaml
  | map (kvs : List (String × Yaml)) : Yaml

/-- Lookup of a key in a parsed mapping (`data[key]`). -/
def lookupKV : List (String × Yaml) → String → Option Yaml
  | [], _ => none
  | (k, v) :: rest, key => if k == key then some v else lookupKV rest key

/-- Reading `data[key]` on a parsed value: only mappings have fields. -/
def yamlField : Yaml → String → Option Yaml
  | .map kvs, key => lookupKV kvs key
  | _, _ => none

/-- `feedem.db.Document`: id, the cached parsed data (`self._data`, `none`
until first loaded or assigned) and the `dirty` flag (starts false). -/
structure Document where
  document_id : String
  cachedData : Option Yaml
  dirty : Bool

/-- `DB.document_path`: the flat mapping id ↦ "<id>.yml" under the store
root (the leading root directory is elided: paths are store-relative). -/
def documentPath (did : String) : String := did ++ ".yml"

/-- Errors surfaced by document operations: the `assert self._data is not
None` in `Document.save`, and a failing git invocation
(`subprocess.CalledProcessError`). -/
inductive SaveErr : Type where
  | assertionFailed : SaveErr
  | gitError (e : String) : SaveErr
deriving DecidableEq, Repr

/-- `Document._commit`: commit the file of this document with the fixed
message used by the source. -/
def Document.commit (doc : Document) (r : GitRepo) : Except String GitRepo :=
  commitOp (documentPath doc.document_id) "Transaction commit" r

/-- `Document._set_raw` (the `raw` property setter): write `text` to the
backing file, request a commit, and only then invalidate the cached parsed
data (`self.data = None`).  A failing commit raises before the invalidation
line runs, so on the error path the stale cache survives; the returned repo
still contains the file write, which happened first. -/
def Document.setRaw (doc : Document) (r : GitRepo) (text : String) :
    GitRepo × Except String Document :=
  let r1 := { r with work := fmInsert r.work (documentPath doc.document_id) text }
  match Document.commit doc r1 with
  | .error e => (r1, .error e)
  | .ok r2 => (r2, .ok { doc with cachedData := none })

/-- `Document._get_data` (the `data` property getter): return the cached
parse if present, else read the backing file and parse it (caching the
result).  A missing backing file is a read error, modelled as `none`. -/
def Document.getData (load : String → Yaml) (doc : Document) (r : GitRepo) :
    Option Yaml × Document :=
  match doc.cachedData with
  | some d => (some d, doc)
  | none =>
      match fmLookup r.work (documentPath doc.document_id) with
      | some raw => (some (load raw), { doc with cachedData := some (load raw) })
      | none => (none, doc)

/-- `document[key]` (`Document.__getitem__`): field access on the lazily
parsed structured view. -/
def Document.getField (load : String → Yaml) (doc : Document) (r : GitRepo)
    (key : String) : Option Yaml :=
  match (Document.getData load doc r).1 with
  | some d => yamlField d key
  | none => none

/-- `Document.save(force)`: return immediately when not dirty and not
forced; otherwise assert the data cache is loaded, serialize it to the
backing file, request a commit, and clear `dirty`.  The write precedes the
commit request, so a failing commit leaves the file written and `dirty`
uncleared. -/
def Document.save (dump : Yaml → String) (doc : Document) (r : GitRepo)
    (force : Bool) : GitRepo × Except SaveErr Document :=
  if doc.dirty = false ∧ force = false then (r, .ok doc)
  else
    match doc.cachedData with
    | none => (r, .error .assertionFailed)
    | some d =>
        let r1 := { r with work := fmInsert r.work (documentPath doc.document_id) (dump d) }
        match Document.commit doc r1 with
        | .error e => (r1, .error (.gitError e))
        | .ok r2 => (r2, .ok { doc with dirty := false })

/-- The catalog content written by `DB.initialize`:
`index_data = dict(recipes=[], menus=[])`. -/
def indexData : Yaml := .map [("recipes", .list []), ("menus", .list [])]

/-- `DB.initialize(path)`: create the directory (a file-system effect
outside this model), `git init`, build the catalog document with
`indexData`, `save(force=True)` (which writes `index.yml` and requests a
commit), and finally run the literal `git add index.yml` and
`git commit -a -m "Initial commit"` subprocess calls of the source. -/
def DB.initialize (dump : Yaml → String) : GitRepo × Except SaveErr Unit :=
  let index : Document := { document_id := "index", cachedData := some indexData, dirty := false }
  match Document.save dump index gitInit true with
  | (r1, .error e) => (r1, .error e)
  | (r1, .ok _) =>
      match gitAdd "index.yml" r1 with
      | .error e => (r1, .error (.gitError e))
      | .ok r2 =>
          match gitCommitA "Initial commit" r2 with
          | .error e => (r2, .error (.gitError e))
          | .ok r3 => (r3, .ok ())

/-- Truthiness of an optional string argument, as tested by `if name:` /
`if did:` in `Document.find` (absent and empty string are both falsy). -/
def optTruthy : Option String → Bool
  | none => false
  | some s => !(s == "")

/-- `Document.common_name`: the diacritic-stripped (`unidecode`) form of the
document title.  `uni` abstracts the external `unidecode` function and
`title` gives each catalogued document id its literal title. -/
def Document.common_name (uni title : String → String) (i : String) : String :=
  uni (title i)

/-- The scan loop of `Document.find`: walk the catalog identifier list in
order, load each candidate, and return the first whose literal title or
common name equals `n`. -/
def findScan (title uni : String → String) (n : String) : List String → Option String
  | [] => none
  | i :: rest =>
      if title i == n || Document.common_name uni title i == n then some i
      else findScan title uni n rest

/-- `Document.find(db, collection, name=None, did=None)`.  `index` is the
catalog (`db.index[collection]` is the identifier list of a collection),
`title`/`uni` describe the stored documents as in `Document.common_name`.
The source tests `name` first: only when `name` is falsy is `did`
consulted. -/
def Document.find (index : String → List String) (title uni : String → String)
    (collection : String) (name did : Option String) : Option String :=
  if optTruthy name then findScan title uni (name.getD "") (index collection)
  else if optTruthy did then did
  else none

/-- A measurement unit (`feedem.Unit`) after `load_units` has wired the
links: a symbol plus an optional raising link holding a multiplicative
factor and a direct reference to the coarser unit.  The optional link is
encoded as two constructors; lowering links play no part in the verified
claims and are elided. -/
inductive MUnit : Type where
  | last (symbol : String) : MUnit
  | linked (symbol : String) (k : ℚ) (target : MUnit) : MUnit
deriving DecidableEq, Repr

def MUnit.symbol : MUnit → String
  | .last s => s
  | .linked s _ _ => s

/-- `Unit.raising` (after wiring): the raising factor and target, if any. -/
def MUnit.raising : MUnit → Option (ℚ × MUnit)
  | .last _ => none
  | .linked _ k t => some (k, t)

/-- `Unit.can_be_raised`. -/
def MUnit.can_be_raised (u : MUnit) : Bool := u.raising.isSome

/-- `feedem.Amount`: a numeric quantity paired with a unit.  Python floats
are modelled as exact rationals. -/
structure Amount where
  amount : ℚ
  unit : MUnit
deriving DecidableEq, Repr

def Amount.can_be_raised (a : Amount) : Bool := a.unit.can_be_raised

/-- `Amount.raise_` / `Unit.raise_`: `Amount(amount * k, upper_unit)`.  The
source asserts `can_be_raised` first; on a unit with no raising link the
call would fail, modelled here by returning the amount unchanged (every use
below is guarded by `can_be_raised`, as in the source). -/
def Amount.raise_ (a : Amount) : Amount :=
  match a.unit with
  | .last s => { a with unit := .last s }
  | .linked _ k t => ⟨a.amount * k, t⟩

/-- The `while amount.can_be_raised is True: amount = amount.raise_()` loop
of `Recipe.scale`, written as structural recursion on the (finite) unit
chain. -/
def raiseFullyAux : ℚ → MUnit → Amount
  | q, .last s => ⟨q, .last s⟩
  | q, .linked _ k t => raiseFullyAux (q * k) t

def Amount.raiseFully (a : Amount) : Amount := raiseFullyAux a.amount a.unit

/-- The same loop as a step-indexed iteration of `Amount.raise_`: `none`
means the fuel ran out before `can_be_raised` became false.  Used to state
that the source loop terminates. -/
def raiseLoop : Nat → Amount → Option Amount
  | 0, a => if a.can_be_raised then none else some a
  | n + 1, a => if a.can_be_raised then raiseLoop n a.raise_ else some a

/-- Length of the raising chain above a unit. -/
def MUnit.chainLength : MUnit → Nat
  | .last _ => 0
  | .linked _ _ t => t.chainLength + 1

/-- One recipe ingredient as far as `Recipe.scale` inspects it: its name and
an optional `amount` entry that is either a YAML integer or a string such
as `"200 g"`. -/
structure Ingredient where
  name : String
  amount : Option (Int ⊕ String)
deriving DecidableEq, Repr

/-- An ingredient after `Recipe.scale` replaced its `amount` entry by an
`Amount` object. -/
structure ScaledIngredient where
  name : String
  amount : Option Amount
deriving DecidableEq, Repr

/-- Decimal digit test on a character (code points 48 to 57). -/
def isDigitChar (c : Char) : Bool := 48 ≤ c.toNat && c.toNat ≤ 57

/-- Accumulating decimal parse of a character list; `none` as soon as a
non-digit appears. -/
def parseDigits (acc : Nat) : List Char → Option Nat
  | [] => some acc
  | c :: rest => if isDigitChar c then parseDigits (acc * 10 + (c.toNat - 48)) rest else none

/-- Python `float()` on the numeric literals occurring in ingredient
amounts: nonnegative integer literals parse to their value; anything else
(including the empty string) is a `ValueError`, modelled as `none`. -/
def pyFloat (s : String) : Option ℚ :=
  match s.toList with
  | [] => none
  | cs => (parseDigits 0 cs).map fun n => (n : ℚ)

/-- Split a character list at every occurrence of `sep`, keeping empty
chunks, exactly like Python `str.split` with an explicit separator. -/
def splitChars (sep : Char) : List Char → List (List Char)
  | [] => [[]]
  | c :: rest =>
      let r := splitChars sep rest
      if c == sep then [] :: r
      else
        match r with
        | [] => [[c]]
        | g :: gs => (c :: g) :: gs

/-- Python `s.split(sep)` for a one-character separator. -/
def pySplit (sep : Char) (s : String) : List String :=
  (splitChars sep s.toList).map fun cs => String.mk cs

/-- The per-ingredient body of `Recipe.scale`: an ingredient without an
`amount` entry is skipped; an integer amount is wrapped as
`Amount(float(n), UNITS["pcs"])` and nothing else happens to it; a string
amount is split on spaces into `float(splitted[0])` and
`UNITS[splitted[-1]]`, scaled by `/ portions * adults`, and raised fully
along the unit chain.  `units` is the `UNITS` table built from the external
`units.yml` (absent from the sources; claims supply concrete chains); a
missing unit or unparsable number is a raised `KeyError`/`ValueError`,
modelled as `none`. -/
def scaleIngredient (units : String → Option MUnit) (portions adults : ℚ)
    (ing : Ingredient) : Option ScaledIngredient :=
  match ing.amount with
  | none => some ⟨ing.name, none⟩
  | some (.inl n) =>
      match units "pcs" with
      | some pcs => some ⟨ing.name, some ⟨(n : ℚ), pcs⟩⟩
      | none => none
  | some (.inr s) =>
      let splitted := pySplit (Char.ofNat 32) s
      match pyFloat (splitted.headD "") with
      | none => none
      | some v =>
          match units (splitted.getLastD "") with
          | none => none
          | some u => some ⟨ing.name, some (Amount.raiseFully ⟨v / portions * adults, u⟩)⟩

/-- `Recipe.scale(scales)` over the ingredient list, with `portions` the
`portions` field of the recipe and `adults` the `scales["adults"]`
entry. -/
def Recipe.scale (units : String → Option MUnit) (portions adults : ℚ)
    (ingredients : List Ingredient) : Option (List ScaledIngredient) :=
  ingredients.mapM (scaleIngredient units portions adults)

/-- The structured validation failure carried by a
`jsonschema.exceptions.ValidationError`: the path of the first violated
constraint and its message. -/
structure ValidationFailure where
  path : List String
  message : String
deriving DecidableEq, Repr

/-- A property schema as used by the source: the only per-property schema
appearing in `src` is `dict(type="string")` (`Recipe.SCHEMA`). -/
inductive SchemaProp : Type where
  | stringType : SchemaProp
deriving DecidableEq, Repr

/-- A document schema of the shape the source defines: a
`dict(type="object")` with an optional `properties` table
(`Recipe.SCHEMA`, `Menu.SCHEMA`). -/
inductive Schema : Type where
  | objectType (properties : List (String × SchemaProp)) : Schema
deriving DecidableEq, Repr

/-- `jsonschema` checking of one property value: `none` on success, else
the violation message. -/
def jsCheckProp : Yaml → SchemaProp → Option String
  | .str _, .stringType => none
  | _, .stringType => some "is not of type string"

/-- `jsonschema` checking of the declared properties against a parsed
mapping, in declaration order; a property absent from the data is not a
violation.  The first violation is reported with its path. -/
def jsProps (kvs : List (String × Yaml)) : List (String × SchemaProp) → Option ValidationFailure
  | [] => none
  | (k, p) :: rest =>
      match lookupKV kvs k with
      | none => jsProps kvs rest
      | some v =>
          match jsCheckProp v p with
          | some msg => some ⟨[k], msg⟩
          | none => jsProps kvs rest

/-- `jsonschema.validate(data, schema)` on the schema language of the
source: raises (returns) the first violation, `none` when the data
conforms. -/
def jsValidate (d : Yaml) : Schema → Option ValidationFailure
  | .objectType props =>
      match d with
      | .map kvs => jsProps kvs props
      | _ => some ⟨[], "is not of type object"⟩

/-- The specification-side meaning of "the data satisfies the schema",
defined independently of the error-reporting checker. -/
def satisfiesProp : Yaml → SchemaProp → Bool
  | .str _, .stringType => true
  | _, .stringType => false

def schemaSatisfied (d : Yaml) : Schema → Bool
  | .objectType props =>
      match d with
      | .map kvs => props.all fun kp =>
          match lookupKV kvs kp.1 with
          | none => true
          | some v => satisfiesProp v kp.2
      | _ => false

/-- The value returned by `Document.validate`: `True`, or the caught
`ValidationError` returned as a value. -/
inductive ValidateResult : Type where
  | success : ValidateResult
  | failure (f : ValidationFailure) : ValidateResult
deriving DecidableEq, Repr

/-- `Document.validate(data, schema)`: run the validator inside
`try/except`; a `ValidationError` is caught and returned, success returns
`True`.  The function is total: a normal validation failure is a value,
never a raised error. -/
def Document.validate (d : Yaml) (s : Schema) : ValidateResult :=
  match jsValidate d s with
  | none => .success
  | some f => .failure f

/-- `Recipe.SCHEMA`: object with a string-typed `title` property. -/
def Recipe.SCHEMA : Schema := .objectType [("title", .stringType)]

/-- `Menu.SCHEMA`: bare object. -/
def Menu.SCHEMA : Schema := .objectType []

/-- The concrete weight chain supplied by the scaling scenario of the spec:
gram raises to decagram with factor 1/10, decagram raises to kilogram with
factor 1/100, kilogram has no raising link. -/
def kgU : MUnit := .last "kg"

def dkgU : MUnit := .linked "dkg" (1/100) kgU

def gU : MUnit := .linked "g" (1/10) dkgU

/-- The count unit `UNITS["pcs"]` used for integer amounts. -/
def pcsU : MUnit := .last "pcs"

/-- The `UNITS` table for the scenario chain. -/
def unitsC3 : String → Option MUnit := fun s =>
  if s == "g" then some gU
  else if s == "dkg" then some dkgU
  else if s == "kg" then some kgU
  else if s == "pcs" then some pcsU
  else none

/-- C3: a recipe with portions 4 and ingredient amount "200 g", scaled to 8
adults over the chain g to dkg (factor 1/10) to kg (factor 1/100), computes
200 / 4 * 8 = 400 grams, raises fully along the chain, and ends with the
amount 0.4 kilograms. -/
theorem scale_scenario_200g :
    Recipe.scale unitsC3 4 8 [⟨"flour", some (.inr "200 g")⟩]
      = some [⟨"flour", some ⟨2/5, kgU⟩⟩]
    ∧ Amount.raiseFully ⟨400, gU⟩ = ⟨2/5, kgU⟩
    ∧ (200 : ℚ) / 4 * 8 = 400 := by
  have h1 : Recipe.scale unitsC3 4 8 [⟨"flour", some (.inr "200 g")⟩]
      = some [⟨"flour", some ⟨((200 : Nat) : ℚ) / 4 * 8 * (1/10) * (1/100), kgU⟩⟩] := rfl
  have h2 : (((200 : Nat) : ℚ)) / 4 * 8 * (1/10) * (1/100) = 2/5 := by norm_num
  have h3 : Amount.raiseFully ⟨400, gU⟩ = ⟨(400 : ℚ) * (1/10) * (1/100), kgU⟩ := rfl
  have h4 : (400 : ℚ) * (1/10) * (1/100) = 2/5 := by norm_num
  refine ⟨?_, ?_, by norm_num⟩
  · rw [h1, h2]
  · rw [h3, h4]

/-- The result of raising fully never admits a further raise: the chain is
climbed to its top. -/
theorem raiseFullyAux_not_raisable (q : ℚ) (u : MUnit) :
    (raiseFullyAux q u).can_be_raised = false := by
  induction u generalizing q with
  | last s => rfl
  | linked s k t ih => exact ih (q * k)

/-- The while loop of `Recipe.scale` reaches the fully raised amount in
exactly as many iterations as the chain above the unit is long. -/
theorem raiseLoop_chainLength (q : ℚ) (u : MUnit) :
    raiseLoop u.chainLength ⟨q, u⟩ = some (raiseFullyAux q u) := by
  induction u generalizing q with
  | last s => rfl
  | linked s k t ih =>
      simpa [raiseLoop, Amount.can_be_raised, MUnit.can_be_raised, MUnit.raising,
        MUnit.chainLength, Amount.raise_, raiseFullyAux] using ih (q * k)

/-- C7: for every amount (unit chains are finite and non-cyclic by
construction of `MUnit`), the raising loop of `Recipe.scale` terminates —
after exactly the chain length of the unit it stops with the fully raised
amount — and the unit of the result can no longer be raised. -/
theorem scale_raise_loop_terminates (a : Amount) :
    raiseLoop (MUnit.chainLength a.unit) a = some (Amount.raiseFully a)
    ∧ Amount.can_be_raised (Amount.raiseFully a) = false := by
  obtain ⟨q, u⟩ := a
  exact ⟨raiseLoop_chainLength q u, raiseFullyAux_not_raisable q u⟩

/-- C10: an ingredient whose amount entry is an integer is wrapped as a
count amount `Amount(float(n), UNITS["pcs"])`, numerically unchanged: it is
neither divided by portions nor multiplied by the adults count nor raised
along the unit chain. -/
theorem scale_integer_amount_unchanged (units : String → Option MUnit)
    (portions adults : ℚ) (nm : String) (n : Int) (pcs : MUnit)
    (h : units "pcs" = some pcs) :
    scaleIngredient units portions adults ⟨nm, some (.inl n)⟩
      = some ⟨nm, some ⟨(n : ℚ), pcs⟩⟩
    ∧ Recipe.scale units portions adults [⟨nm, some (.inl n)⟩]
      = some [⟨nm, some ⟨(n : ℚ), pcs⟩⟩] := by
  constructor
  · simp [scaleIngredient, h]
  · simp [Recipe.scale, List.mapM, List.mapM.loop, scaleIngredient, h]

/-- Witness for C10 at a concrete ingredient: three eggs stay three pieces
under scaling from 4 portions to 8 adults. -/
theorem scale_integer_amount_unchanged_witness :
    scaleIngredient unitsC3 4 8 ⟨"eggs", some (.inl 3)⟩
      = some ⟨"eggs", some ⟨((3 : Int) : ℚ), pcsU⟩⟩
    ∧ Recipe.scale unitsC3 4 8 [⟨"eggs", some (.inl 3)⟩]
      = some [⟨"eggs", some ⟨((3 : Int) : ℚ), pcsU⟩⟩] :=
  scale_integer_amount_unchanged unitsC3 4 8 "eggs" 3 pcsU rfl

/-- The scan of `Document.find` is the first catalog entry, in catalog
order, whose literal title or diacritic-stripped common name matches. -/
theorem findScan_eq_find? (title uni : String → String) (n : String) (ids : List String) :
    findScan title uni n ids = ids.find? fun i => title i == n || uni (title i) == n := by
  induction ids with
  | nil => rfl
  | cons i rest ih =>
      unfold findScan
      by_cases h : (title i == n || Document.common_name uni title i == n) = true
      · rw [if_pos h, List.find?_cons_of_pos _ (by simpa [Document.common_name] using h)]
      · rw [if_neg h, List.find?_cons_of_neg _ (by simpa [Document.common_name] using h), ih]

/-- C2 counterexample: with both a name and an id supplied, the source
scans by name and ignores the id entirely; on an empty catalog the scan
returns the not-found result `none` instead of loading the document with
the given identifier `"r1"` (the claim would require `some "r1"`). -/
theorem find_ignores_id_when_name_given :
    Document.find (fun _ => []) (fun _ => "") (fun s => s) "recipes"
        (some "nope") (some "r1")
      = none := by decide

/-- C2 amended: a non-empty name triggers the catalog scan (first match by
literal title or common name, in catalog order) regardless of any id
argument; the id is loaded directly only when the name is absent, and with
neither argument the result is not-found. -/
theorem find_name_before_id (index : String → List String)
    (title uni : String → String) (coll : String) (n d : String)
    (did : Option String) :
    (n ≠ "" → Document.find index title uni coll (some n) did
        = (index coll).find? fun i => title i == n || uni (title i) == n)
    ∧ (d ≠ "" → Document.find index title uni coll none (some d) = some d)
    ∧ Document.find index title uni coll none none = none := by
  refine ⟨fun hn => ?_, fun hd => ?_, rfl⟩
  · have ht : optTruthy (some n) = true := by simp [optTruthy, hn]
    simp [Document.find, ht, findScan_eq_find?]
  · simp [Document.find, optTruthy, hd]

/-- Witness for the amended C2 on a one-recipe catalog: a title search finds
the catalogued document and an id lookup returns it directly. -/
theorem find_name_before_id_witness :
    Document.find (fun _ => ["r1"]) (fun _ => "Soup") (fun s => s) "recipes"
        (some "Soup") (some "zzz")
      = some "r1"
    ∧ Document.find (fun _ => ["r1"]) (fun _ => "Soup") (fun s => s) "recipes"
        none (some "r1")
      = some "r1" := by
  have h := find_name_before_id (fun _ => ["r1"]) (fun _ => "Soup") (fun s => s)
    "recipes" "Soup" "r1" (some "zzz")
  refine ⟨?_, h.2.1 (by decide)⟩
  rw [h.1 (by decide)]
  rfl

/-- Looking up the path just written always yields the written content. -/
theorem fmLookup_fmInsert_self (m : FileMap) (k v : String) :
    fmLookup (fmInsert m k v) k = some v := by
  induction m with
  | nil => simp [fmInsert, fmLookup]
  | cons kv rest ih =>
      obtain ⟨k1, v1⟩ := kv
      by_cases h : (k1 == k) = true
      · simp [fmInsert, h, fmLookup]
      · simp [fmInsert, h, fmLookup, ih]

/-- A successful `git add` changes only the staging area. -/
theorem gitAdd_ok (p : String) (r r' : GitRepo) (h : gitAdd p r = .ok r') :
    r'.work = r.work ∧ r'.head = r.head ∧ r'.history = r.history := by
  unfold gitAdd at h
  cases hl : fmLookup r.work p with
  | none => rw [hl] at h; cases h
  | some v => rw [hl] at h; cases h; exact ⟨rfl, rfl, rfl⟩

/-- A successful `git commit -a` keeps the working tree and prepends exactly
one commit with the given message. -/
theorem gitCommitA_ok (m : String) (r r' : GitRepo) (h : gitCommitA m r = .ok r') :
    r'.work = r.work ∧ r'.history = m :: r.history := by
  unfold gitCommitA at h
  dsimp only at h
  split at h
  · cases h
  · cases h; exact ⟨rfl, rfl⟩

/-- A successful `commit(paths, message)` request never touches the working
tree. -/
theorem commitOp_ok_work (p m : String) (r r' : GitRepo)
    (h : commitOp p m r = .ok r') : r'.work = r.work := by
  unfold commitOp at h
  split at h
  · cases h; rfl
  · cases ha : gitAdd p r with
    | error e => rw [ha] at h; cases h
    | ok r1 =>
        rw [ha] at h
        exact (gitCommitA_ok m r1 r' h).1.trans (gitAdd_ok p r r1 ha).1

/-- C9: saving a document whose structured data was never loaded or
assigned fails the `assert self._data is not None` before any write: the
repository (backing file included) is returned unchanged. -/
theorem save_unloaded_asserts (dump : Yaml → String) (doc : Document)
    (r : GitRepo) (force : Bool) (hc : doc.cachedData = none)
    (hd : doc.dirty = true ∨ force = true) :
    Document.save dump doc r force = (r, .error .assertionFailed) := by
  have hcond : ¬(doc.dirty = false ∧ force = false) := by
    rcases hd with h | h <;> simp [h]
  simp [Document.save, hcond, hc]

/-- Witness for C9: a freshly constructed document saved with force set. -/
theorem save_unloaded_asserts_witness :
    Document.save (fun _ => "") ⟨"index", none, false⟩ gitInit true
      = (gitInit, .error .assertionFailed) :=
  save_unloaded_asserts (fun _ => "") ⟨"index", none, false⟩ gitInit true rfl (Or.inr rfl)

/-- C4 counterexample: a dirty document whose data cache is unloaded shows
that `save(force=True)` does not always write — the assertion fires, no
file write happens and the state is unchanged. -/
theorem save_force_does_not_always_write :
    (Document.save (fun _ => "") ⟨"r1", none, true⟩ gitInit true).2
      = .error .assertionFailed
    ∧ (Document.save (fun _ => "") ⟨"r1", none, true⟩ gitInit true).1 = gitInit :=
  ⟨rfl, rfl⟩

/-- C4 amended: a clean document saved without force is a strict no-op (no
file write, no commit, identical state); a document whose data is loaded,
saved with force, always writes the serialized data to its backing file and
requests a commit, and when the commit request does not fail the returned
document has `dirty` cleared. -/
theorem save_gating (dump : Yaml → String) (doc : Document) (r : GitRepo) :
    (doc.dirty = false → Document.save dump doc r false = (r, .ok doc))
    ∧ (∀ d, doc.cachedData = some d →
        fmLookup (Document.save dump doc r true).1.work (documentPath doc.document_id)
          = some (dump d)
        ∧ ∀ doc', (Document.save dump doc r true).2 = .ok doc'
            → doc' = { doc with dirty := false }) := by
  obtain ⟨did, cd, dirty⟩ := doc
  constructor
  · intro h
    simp only at h
    simp [Document.save, h]
  · intro d hd
    simp only at hd
    subst hd
    have hcond : ¬((false : Bool) = false ∧ (true : Bool) = false) := by simp
    unfold Document.save
    simp only
    rw [if_neg (by simp)]
    cases hcom : Document.commit ⟨did, some d, dirty⟩
        { r with work := fmInsert r.work (documentPath did) (dump d) } with
    | error e =>
        dsimp only
        exact ⟨fmLookup_fmInsert_self _ _ _, fun doc' h' => Except.noConfusion h'⟩
    | ok r2 =>
        dsimp only
        have hw := commitOp_ok_work (documentPath did) "Transaction commit" _ _ hcom
        constructor
        · rw [hw]; exact fmLookup_fmInsert_self _ _ _
        · intro doc' h'
          injection h' with h2
          exact h2.symm

/-- Witness for the amended C4: a clean no-op save and a forced save whose
written file holds the serialized data. -/
theorem save_gating_witness :
    Document.save (fun _ => "x") ⟨"r1", some (Yaml.map []), false⟩ gitInit false
      = (gitInit, .ok ⟨"r1", some (Yaml.map []), false⟩)
    ∧ fmLookup (Document.save (fun _ => "x") ⟨"r1", some (Yaml.map []), false⟩
        gitInit true).1.work (documentPath "r1") = some "x" := by
  have h := save_gating (fun _ => "x") ⟨"r1", some (Yaml.map []), false⟩ gitInit
  exact ⟨h.1 rfl, (h.2 (Yaml.map []) rfl).1⟩

/-- C5 counterexample: the source invalidates the cache only after the
commit request inside `_set_raw`; when the working tree is dirty solely
because of an untracked stray file and the written text equals the HEAD
content, the commit invocation fails, the invalidation line is never
reached, and a subsequent field read returns a value derived from the
previous raw content "B" although the backing file now holds "A" (a fresh
parse of the new content would give the distinct value "A", as the last
conjunct shows). -/
theorem set_raw_stale_cache :
    (Document.setRaw ⟨"d", some (Yaml.map [("title", Yaml.str "B")]), false⟩
        ⟨[("d.yml", "B"), ("stray", "x")], [("d.yml", "A")], [("d.yml", "A")], ["c0"]⟩
        "A").2
      = .error "nothing to commit"
    ∧ fmLookup (Document.setRaw ⟨"d", some (Yaml.map [("title", Yaml.str "B")]), false⟩
        ⟨[("d.yml", "B"), ("stray", "x")], [("d.yml", "A")], [("d.yml", "A")], ["c0"]⟩
        "A").1.work "d.yml" = some "A"
    ∧ Document.getField (fun s => Yaml.map [("title", Yaml.str s)])
        ⟨"d", some (Yaml.map [("title", Yaml.str "B")]), false⟩
        (Document.setRaw ⟨"d", some (Yaml.map [("title", Yaml.str "B")]), false⟩
          ⟨[("d.yml", "B"), ("stray", "x")], [("d.yml", "A")], [("d.yml", "A")], ["c0"]⟩
          "A").1 "title"
      = some (Yaml.str "B")
    ∧ Document.getField (fun s => Yaml.map [("title", Yaml.str s)])
        ⟨"d", none, false⟩
        (Document.setRaw ⟨"d", some (Yaml.map [("title", Yaml.str "B")]), false⟩
          ⟨[("d.yml", "B"), ("stray", "x")], [("d.yml", "A")], [("d.yml", "A")], ["c0"]⟩
          "A").1 "title"
      = some (Yaml.str "A") :=
  ⟨rfl, rfl, rfl, rfl⟩

/-- C5 amended: whenever a raw write completes without error (its commit
request succeeds or is skipped), the cached structured view is invalidated,
and every subsequent read of the structured data or of any field reflects
the parse of the new text. -/
theorem set_raw_invalidates (load : String → Yaml) (doc doc' : Document)
    (r r' : GitRepo) (t : String)
    (h : Document.setRaw doc r t = (r', .ok doc')) :
    (Document.getData load doc' r').1 = some (load t)
    ∧ ∀ key, Document.getField load doc' r' key = yamlField (load t) key := by
  obtain ⟨did, cd, dirty⟩ := doc
  unfold Document.setRaw at h
  dsimp only at h
  cases hcom : Document.commit ⟨did, cd, dirty⟩
      { r with work := fmInsert r.work (documentPath did) t } with
  | error e => rw [hcom] at h; cases h
  | ok r2 =>
      rw [hcom] at h
      injection h with h1 h2
      injection h2 with h2
      subst h1
      subst h2
      have hw := commitOp_ok_work (documentPath did) "Transaction commit" _ _ hcom
      have hl : fmLookup r2.work (documentPath did) = some t := by
        rw [hw]; exact fmLookup_fmInsert_self _ _ _
      constructor
      · simp [Document.getData, hl]
      · intro key
        simp [Document.getField, Document.getData, hl]

/-- Witness for the amended C5: a successful raw write into a fresh store,
after which the structured view is the parse of the written text. -/
theorem set_raw_invalidates_witness :
    (Document.getData (fun s => Yaml.str s) ⟨"d", none, true⟩
        ⟨[("d.yml", "A")], [("d.yml", "A")], [("d.yml", "A")], ["Transaction commit"]⟩).1
      = some (Yaml.str "A") :=
  (set_raw_invalidates (fun s => Yaml.str s) ⟨"d", some (Yaml.int 1), true⟩
      ⟨"d", none, true⟩ gitInit
      ⟨[("d.yml", "A")], [("d.yml", "A")], [("d.yml", "A")], ["Transaction commit"]⟩
      "A" rfl).1

/-- C6 counterexample: a working tree dirty only because of an untracked
stray file, while the given path itself is unchanged; the status check sees
uncommitted changes, yet `git commit -a` finds nothing to stage and exits
non-zero, so no commit is created although the claim requires exactly
one. -/
theorem commit_dirty_without_commit :
    statusClean ⟨[("d.yml", "A"), ("stray", "x")], [("d.yml", "A")],
        [("d.yml", "A")], ["c0"]⟩ = false
    ∧ commitOp "d.yml" "Transaction commit"
        ⟨[("d.yml", "A"), ("stray", "x")], [("d.yml", "A")], [("d.yml", "A")], ["c0"]⟩
      = .error "nothing to commit" :=
  ⟨rfl, rfl⟩

/-- C6 amended: a commit request on a clean working tree is a strict no-op
(no staging, no commit, identical state); on a dirty tree it stages the
given path and attempts one commit with the given message, and whenever the
commit invocation succeeds the history grows by exactly that one commit
while the working tree is untouched (when the staged snapshot still equals
HEAD — e.g. only untracked stray files changed — the invocation instead
fails and no commit is created). -/
theorem commit_noop_or_one_commit (p m : String) (r : GitRepo) :
    (statusClean r = true → commitOp p m r = .ok r)
    ∧ (∀ r', statusClean r = false → commitOp p m r = .ok r' →
        r'.history = m :: r.history ∧ r'.work = r.work) := by
  constructor
  · intro h; simp [commitOp, h]
  · intro r' h hok
    unfold commitOp at hok
    rw [if_neg (by simp [h])] at hok
    cases ha : gitAdd p r with
    | error e => rw [ha] at hok; cases hok
    | ok r1 =>
        rw [ha] at hok
        obtain ⟨hw, hh⟩ := gitCommitA_ok m r1 r' hok
        obtain ⟨haw, _, hah⟩ := gitAdd_ok p r r1 ha
        exact ⟨by rw [hh, hah], by rw [hw, haw]⟩

/-- Witness for the amended C6: the clean no-op on a fresh repository, and
one created commit on a repository whose only change is a new file. -/
theorem commit_noop_or_one_commit_witness :
    commitOp "d.yml" "m" gitInit = .ok gitInit
    ∧ (GitRepo.history ⟨[("d.yml", "B")], [("d.yml", "B")], [("d.yml", "B")], ["m"]⟩
        = "m" :: GitRepo.history ⟨[("d.yml", "B")], [], [], []⟩
      ∧ GitRepo.work ⟨[("d.yml", "B")], [("d.yml", "B")], [("d.yml", "B")], ["m"]⟩
        = GitRepo.work ⟨[("d.yml", "B")], [], [], []⟩) :=
  ⟨(commit_noop_or_one_commit "d.yml" "m" gitInit).1 rfl,
   (commit_noop_or_one_commit "d.yml" "m" ⟨[("d.yml", "B")], [], [], []⟩).2
     ⟨[("d.yml", "B")], [("d.yml", "B")], [("d.yml", "B")], ["m"]⟩ rfl rfl⟩

/-- The repository state reached by `DB.initialize` right after the forced
catalog save: `index.yml` written, staged and committed once, with the
commit message issued by `Document._commit`. -/
def initRepoState (D : String) : GitRepo :=
  ⟨[("index.yml", D)], [("index.yml", D)], [("index.yml", D)], ["Transaction commit"]⟩

/-- After the forced save has already committed the catalog, the trailing
`git commit -a -m "Initial commit"` of `DB.initialize` finds a clean tree
and exits non-zero. -/
theorem initialize_trailing_commit_fails (D : String) :
    gitCommitA "Initial commit" (initRepoState D) = .error "nothing to commit" := by
  have hagree : fmAgree [("index.yml", D)] [("index.yml", D)] = true := by
    simp [fmAgree, fmKeys, fmLookup]
  show (if fmAgree [("index.yml", D)] [("index.yml", D)] = true
      then (.error "nothing to commit" : Except String GitRepo)
      else .ok { work := (initRepoState D).work,
                 staged := [("index.yml", D)], head := [("index.yml", D)],
                 history := "Initial commit" :: (initRepoState D).history })
    = .error "nothing to commit"
  rw [if_pos hagree]

/-- C1: on an empty directory, `DB.initialize` writes `index.yml` with the
serialization of exactly the catalog content of recipes and menus both
empty, and the version history holds exactly one commit — but the operation
then always fails, because the trailing explicit `git commit -a` runs on a
tree the forced save already committed, and its non-zero exit raises
`subprocess.CalledProcessError`. -/
theorem initialize_commits_once_then_fails (dump : Yaml → String) :
    DB.initialize dump
      = (initRepoState (dump indexData), .error (.gitError "nothing to commit"))
    ∧ (initRepoState (dump indexData)).history = ["Transaction commit"]
    ∧ fmLookup (initRepoState (dump indexData)).work "index.yml"
      = some (dump indexData) := by
  refine ⟨?_, rfl, rfl⟩
  calc DB.initialize dump
      = (match gitCommitA "Initial commit" (initRepoState (dump indexData)) with
         | .error e => (initRepoState (dump indexData), .error (.gitError e))
         | .ok r3 => (r3, .ok ())) := rfl
    _ = (initRepoState (dump indexData), .error (.gitError "nothing to commit")) := by
        rw [initialize_trailing_commit_fails]

/-- Per-property checking succeeds exactly when the property value
satisfies its schema. -/
theorem jsCheckProp_none_iff (v : Yaml) (p : SchemaProp) :
    jsCheckProp v p = none ↔ satisfiesProp v p = true := by
  cases v <;> cases p <;> simp [jsCheckProp, satisfiesProp]

/-- The property walk raises no violation exactly when every declared
property present in the data satisfies its schema. -/
theorem jsProps_none_iff (kvs : List (String × Yaml)) (props : List (String × SchemaProp)) :
    jsProps kvs props = none
      ↔ (props.all fun kp =>
          match lookupKV kvs kp.1 with
          | none => true
          | some v => satisfiesProp v kp.2) = true := by
  induction props with
  | nil => simp [jsProps]
  | cons kp rest ih =>
      obtain ⟨k, p⟩ := kp
      simp only [jsProps, List.all_cons]
      cases hk : lookupKV kvs k with
      | none => simpa [hk] using ih
      | some v =>
          cases hc : jsCheckProp v p with
          | some msg =>
              have : satisfiesProp v p = false := by
                cases hs : satisfiesProp v p
                · rfl
                · rw [(jsCheckProp_none_iff v p).2 hs] at hc; cases hc
              simp [hk, hc, this]
          | none =>
              have := (jsCheckProp_none_iff v p).1 hc
              simpa [hk, hc, this] using ih

/-- The validator reports no violation exactly when the data satisfies the
schema. -/
theorem jsValidate_none_iff (d : Yaml) (s : Schema) :
    jsValidate d s = none ↔ schemaSatisfied d s = true := by
  obtain ⟨props⟩ := s
  cases d <;> simp [jsValidate, schemaSatisfied, jsProps_none_iff]

/-- C8: `Document.validate` is a total function — a normal validation
failure is returned as a value, never thrown: it returns success exactly
when the data satisfies the schema, and on any unsatisfied schema it
returns the structured failure (path and message of the first violated
constraint) produced by the validator. -/
theorem validate_returns_value (d : Yaml) (s : Schema) :
    (Document.validate d s = .success ↔ schemaSatisfied d s = true)
    ∧ (schemaSatisfied d s = false → ∃ f, Document.validate d s = .failure f) := by
  constructor
  · constructor
    · intro h
      cases hv : jsValidate d s with
      | none => exact (jsValidate_none_iff d s).1 hv
      | some f => rw [Document.validate, hv] at h; cases h
    · intro h
      rw [Document.validate, (jsValidate_none_iff d s).2 h]
  · intro h
    cases hv : jsValidate d s with
    | none =>
        rw [(jsValidate_none_iff d s).1 hv] at h; cases h
    | some f => exact ⟨f, by rw [Document.validate, hv]⟩

/-- Witness for C8: non-object data against the recipe schema yields a
returned failure value. -/
theorem validate_returns_value_witness :
    ∃ f, Document.validate (Yaml.int 3) Recipe.SCHEMA = .failure f :=
  (validate_returns_value (Yaml.int 3) Recipe.SCHEMA).2 rfl
